import Mathlib

/-!
Verification development for the composite-widget interaction engine of the
styleless-ui react-styleless-ui repository.

The definitions below are shallow embeddings of the TypeScript sources:

* `getAvailableItem`, `getInitialAvailableItem` and the arrow-key branches of
  `handleKeyDown` come from `src/lib/Select/components/Controller/utils.ts`.
* `getAvailableTab` comes from `src/lib/TabGroup/Tab/Tab.tsx`.
* The submenu transition system comes from `src/lib/Menu/Menu.tsx`.
* `radioCalcTabIndex` comes from `src/lib/Radio/Radio.tsx`,
  `tabGroupForcedTabability` from the `TabGroupBase` effect in
  `src/lib/utils/get-scrolling-state.ts`, and `tabTabIndex` from
  `src/lib/TabGroup/Tab/Tab.tsx`.
* The checkbox state projections come from `src/unnamed/part_000`
  (`CheckboxBase`), and the focus-visible state machine from
  `src/unnamed/part_004` (`ThumbBase`) and `useComboboxBase`.

DOM elements are modelled as records of the attributes the algorithms read.
React state is modelled by explicit state records and step relations; each
user-visible event is one atomic transition covering the handler together
with the effects it triggers.
-/

/-- A Select option element, holding exactly the attributes read by
`getAvailableItem` and `getInitialAvailableItem`
(`src/lib/Select/components/Controller/utils.ts`):
`aria-disabled`, `data-hidden`, `aria-hidden` and `data-selected`. -/
structure OptionItem where
  ariaDisabled : Bool
  dataHidden : Bool
  ariaHidden : Bool
  dataSelected : Bool
  deriving DecidableEq, Repr

/-- The unavailability test of `getAvailableItem` (utils.ts lines 184-189):
`aria-disabled === "true" || data-hidden || aria-hidden === "true" ||
data-hidden`.  The duplicated `data-hidden` disjunct of the source is kept. -/
def isUnavailable (item : OptionItem) : Bool :=
  item.ariaDisabled || item.dataHidden || item.ariaHidden || item.dataHidden

/-- Index advance of the cyclic search (utils.ts lines 190-191):
`(forward ? idx + 1 : idx - 1 + items.length) % items.length`.
For natural numbers `idx - 1 + len` is rewritten as `idx + len - 1`,
which is the same integer for every `idx ≥ 0, len ≥ 1`. -/
def stepIdx (len idx : Nat) (forward : Bool) : Nat :=
  if forward then (idx + 1) % len else (idx + len - 1) % len

/-- Number of distinct in-range indices recorded in the visited accumulator;
the termination measure of the cyclic search is `len` minus this count. -/
def visitedCount (len : Nat) (prevIdxs : List Nat) : Nat :=
  ((prevIdxs.filter (fun j => j < len)).toFinset).card

theorem visitedCount_le (len : Nat) (prevIdxs : List Nat) :
    visitedCount len prevIdxs ≤ len := by
  unfold visitedCount
  have hsub : ((prevIdxs.filter (fun j => j < len)).toFinset) ⊆ Finset.range len := by
    intro x hx
    rw [List.mem_toFinset, List.mem_filter] at hx
    exact Finset.mem_range.mpr (by simpa using hx.2)
  exact le_trans (Finset.card_le_card hsub) (Finset.card_range len).le

theorem visitedCount_append (len idx : Nat) (prevIdxs : List Nat)
    (hlt : idx < len) (hmem : idx ∉ prevIdxs) :
    visitedCount len (prevIdxs ++ [idx]) = visitedCount len prevIdxs + 1 := by
  unfold visitedCount
  rw [List.filter_append]
  have h1 : ([idx].filter (fun j => j < len)) = [idx] := by
    simp [List.filter, hlt]
  rw [h1, List.toFinset_append]
  have h2 : ([idx] : List Nat).toFinset = {idx} := by simp
  rw [h2]
  have h3 : (prevIdxs.filter (fun j => j < len)).toFinset ∪ {idx} =
      insert idx (prevIdxs.filter (fun j => j < len)).toFinset := by
    rw [Finset.union_comm, Finset.insert_eq]
  rw [h3, Finset.card_insert_of_not_mem]
  intro hc
  rw [List.mem_toFinset, List.mem_filter] at hc
  exact hmem hc.1

theorem searchMeasure_decreases (len idx : Nat) (prevIdxs : List Nat)
    (hlt : idx < len) (hmem : idx ∉ prevIdxs) :
    len - visitedCount len (prevIdxs ++ [idx]) < len - visitedCount len prevIdxs := by
  rw [visitedCount_append len idx prevIdxs hlt hmem]
  have hle : visitedCount len (prevIdxs ++ [idx]) ≤ len := visitedCount_le len _
  rw [visitedCount_append len idx prevIdxs hlt hmem] at hle
  exact Nat.sub_lt_sub_left (Nat.lt_of_succ_le hle) (Nat.lt_succ_self _)

/-- Translation of `getAvailableItem`
(`src/lib/Select/components/Controller/utils.ts` lines 173-197):

```
const getAvailableItem = (items, idx, forward, prevIdxs = []) => {
  const item = items[idx];
  if (!item) return null;
  if (prevIdxs.includes(idx)) return null;
  if (ariaDisabled || dataHidden || ariaHidden || dataHidden) {
    const newIdx = (forward ? idx + 1 : idx - 1 + items.length) % items.length;
    return getAvailableItem(items, newIdx, forward, [...prevIdxs, idx]);
  }
  return item;
};
``` -/
def getAvailableItem (items : List OptionItem) (idx : Nat) (forward : Bool)
    (prevIdxs : List Nat) : Option OptionItem :=
  match h : items[idx]? with
  | none => none
  | some item =>
    if idx ∈ prevIdxs then none
    else if isUnavailable item then
      getAvailableItem items (stepIdx items.length idx forward) forward (prevIdxs ++ [idx])
    else some item
termination_by items.length - visitedCount items.length prevIdxs
decreasing_by
  exact searchMeasure_decreases items.length idx prevIdxs
    ((List.getElem?_eq_some.mp h).1) (by assumption)

/-- Instrumented variant of `getAvailableItem`: the same recursion, returning
the index of the found item together with the list of indices whose
availability was actually examined. -/
def getAvailableItemTrace (items : List OptionItem) (idx : Nat) (forward : Bool)
    (prevIdxs : List Nat) : Option Nat × List Nat :=
  match h : items[idx]? with
  | none => (none, [])
  | some item =>
    if idx ∈ prevIdxs then (none, [])
    else if isUnavailable item then
      let r := getAvailableItemTrace items (stepIdx items.length idx forward) forward
        (prevIdxs ++ [idx])
      (r.1, idx :: r.2)
    else (some idx, [idx])
termination_by items.length - visitedCount items.length prevIdxs
decreasing_by
  exact searchMeasure_decreases items.length idx prevIdxs
    ((List.getElem?_eq_some.mp h).1) (by assumption)

theorem getAvailableItem_oob (items : List OptionItem) (idx : Nat) (forward : Bool)
    (prevIdxs : List Nat) (h : items[idx]? = none) :
    getAvailableItem items idx forward prevIdxs = none := by
  rw [getAvailableItem]
  split
  · rfl
  · next item heq => rw [h] at heq; cases heq

theorem getAvailableItem_visited (items : List OptionItem) (idx : Nat) (forward : Bool)
    (prevIdxs : List Nat) (item : OptionItem) (h : items[idx]? = some item)
    (hmem : idx ∈ prevIdxs) :
    getAvailableItem items idx forward prevIdxs = none := by
  rw [getAvailableItem]
  split
  · rfl
  · next item' heq =>
    rw [h] at heq
    cases heq
    rw [if_pos hmem]

theorem getAvailableItem_unav (items : List OptionItem) (idx : Nat) (forward : Bool)
    (prevIdxs : List Nat) (item : OptionItem) (h : items[idx]? = some item)
    (hmem : idx ∉ prevIdxs) (hunav : isUnavailable item = true) :
    getAvailableItem items idx forward prevIdxs =
      getAvailableItem items (stepIdx items.length idx forward) forward
        (prevIdxs ++ [idx]) := by
  rw [getAvailableItem]
  split
  · next heq => rw [heq] at h; cases h
  · next item' heq =>
    rw [h] at heq
    cases heq
    rw [if_neg hmem, if_pos hunav]

theorem getAvailableItem_found (items : List OptionItem) (idx : Nat) (forward : Bool)
    (prevIdxs : List Nat) (item : OptionItem) (h : items[idx]? = some item)
    (hmem : idx ∉ prevIdxs) (hav : isUnavailable item = false) :
    getAvailableItem items idx forward prevIdxs = some item := by
  rw [getAvailableItem]
  split
  · next heq => rw [heq] at h; cases h
  · next item' heq =>
    rw [h] at heq
    cases heq
    rw [if_neg hmem, if_neg (by simp [hav])]

theorem trace_oob (items : List OptionItem) (idx : Nat) (forward : Bool)
    (prevIdxs : List Nat) (h : items[idx]? = none) :
    getAvailableItemTrace items idx forward prevIdxs = (none, []) := by
  rw [getAvailableItemTrace]
  split
  · rfl
  · next item heq => rw [h] at heq; cases heq

theorem trace_visited (items : List OptionItem) (idx : Nat) (forward : Bool)
    (prevIdxs : List Nat) (item : OptionItem) (h : items[idx]? = some item)
    (hmem : idx ∈ prevIdxs) :
    getAvailableItemTrace items idx forward prevIdxs = (none, []) := by
  rw [getAvailableItemTrace]
  split
  · rfl
  · next item' heq =>
    rw [h] at heq
    cases heq
    rw [if_pos hmem]

theorem trace_unav (items : List OptionItem) (idx : Nat) (forward : Bool)
    (prevIdxs : List Nat) (item : OptionItem) (h : items[idx]? = some item)
    (hmem : idx ∉ prevIdxs) (hunav : isUnavailable item = true) :
    getAvailableItemTrace items idx forward prevIdxs =
      ((getAvailableItemTrace items (stepIdx items.length idx forward) forward
        (prevIdxs ++ [idx])).1,
        idx :: (getAvailableItemTrace items (stepIdx items.length idx forward) forward
        (prevIdxs ++ [idx])).2) := by
  rw [getAvailableItemTrace]
  split
  · next heq => rw [heq] at h; cases h
  · next item' heq =>
    rw [h] at heq
    cases heq
    rw [if_neg hmem, if_pos hunav]

theorem trace_found (items : List OptionItem) (idx : Nat) (forward : Bool)
    (prevIdxs : List Nat) (item : OptionItem) (h : items[idx]? = some item)
    (hmem : idx ∉ prevIdxs) (hav : isUnavailable item = false) :
    getAvailableItemTrace items idx forward prevIdxs = (some idx, [idx]) := by
  rw [getAvailableItemTrace]
  split
  · next heq => rw [heq] at h; cases h
  · next item' heq =>
    rw [h] at heq
    cases heq
    rw [if_neg hmem, if_neg (by simp [hav])]

/-- `getAvailableItem` returns exactly the element sitting at the index
computed by the instrumented search. -/
theorem getAvailableItem_eq_trace (items : List OptionItem) (idx : Nat)
    (forward : Bool) (prevIdxs : List Nat) :
    getAvailableItem items idx forward prevIdxs =
      ((getAvailableItemTrace items idx forward prevIdxs).1).bind
        (fun j => items[j]?) := by
  refine getAvailableItem.induct items
    (motive := fun idx forward prevIdxs =>
      getAvailableItem items idx forward prevIdxs =
      ((getAvailableItemTrace items idx forward prevIdxs).1).bind
        (fun j => items[j]?))
    ?_ ?_ ?_ ?_ idx forward prevIdxs
  · intro idx forward prevIdxs h
    rw [getAvailableItem_oob items idx forward prevIdxs h,
      trace_oob items idx forward prevIdxs h]
    rfl
  · intro idx forward prevIdxs item h hmem
    rw [getAvailableItem_visited items idx forward prevIdxs item h hmem,
      trace_visited items idx forward prevIdxs item h hmem]
    rfl
  · intro idx forward prevIdxs item h hmem hunav ih
    rw [getAvailableItem_unav items idx forward prevIdxs item h hmem hunav,
      trace_unav items idx forward prevIdxs item h hmem hunav]
    exact ih
  · intro idx forward prevIdxs item h hmem hunav
    rw [getAvailableItem_found items idx forward prevIdxs item h
        (by assumption) (by simpa using hunav),
      trace_found items idx forward prevIdxs item h
        (by assumption) (by simpa using hunav)]
    simp [h]

/-- Availability of the element at index `j`: the element exists and passes
the filter of `getAvailableItem` (not disabled and not hidden). -/
def availAt (items : List OptionItem) (j : Nat) : Bool :=
  match items[j]? with
  | some item => !(isUnavailable item)
  | none => false

/-- The index examined by the cyclic search after `k` steps from `idx`:
each step adds `1` (forward) or `len - 1` (backward) modulo `len`. -/
def searchPos (len idx : Nat) (forward : Bool) (k : Nat) : Nat :=
  (idx + (if forward then 1 else len - 1) * k) % len

theorem searchPos_zero (len idx : Nat) (forward : Bool) (h : idx < len) :
    searchPos len idx forward 0 = idx := by
  unfold searchPos
  rw [Nat.mul_zero, Nat.add_zero, Nat.mod_eq_of_lt h]

theorem stepIdx_eq (len idx : Nat) (forward : Bool) (h : 0 < len) :
    stepIdx len idx forward = (idx + (if forward then 1 else len - 1)) % len := by
  unfold stepIdx
  cases forward <;> simp only [if_true, if_false, Bool.false_eq_true]
  congr 1
  omega

theorem stepIdx_lt (len idx : Nat) (forward : Bool) (h : 0 < len) :
    stepIdx len idx forward < len := by
  unfold stepIdx
  cases forward <;> simp only [if_true, if_false, Bool.false_eq_true] <;>
    exact Nat.mod_lt _ h

theorem searchPos_step (len idx : Nat) (forward : Bool) (k : Nat) (h : 0 < len) :
    searchPos len (stepIdx len idx forward) forward k =
      searchPos len idx forward (k + 1) := by
  rw [stepIdx_eq len idx forward h]
  unfold searchPos
  rw [Nat.mod_add_mod]
  congr 1
  rw [Nat.mul_succ]
  ring

theorem add_mod_eq_self_iff (len idx m : Nat) (h : idx < len) :
    (idx + m) % len = idx ↔ len ∣ m := by
  constructor
  · intro hmod
    have hmeq : idx + m ≡ idx + 0 [MOD len] := by
      unfold Nat.ModEq
      rw [Nat.add_zero, hmod, Nat.mod_eq_of_lt h]
    have := Nat.ModEq.add_left_cancel' idx hmeq
    exact (Nat.modEq_zero_iff_dvd).mp this
  · rintro ⟨t, rfl⟩
    rw [Nat.add_mul_mod_self_left, Nat.mod_eq_of_lt h]

theorem searchPos_eq_self_dvd (len idx : Nat) (forward : Bool) (k : Nat)
    (h : idx < len) (heq : searchPos len idx forward k = idx) :
    len ∣ (if forward then 1 else len - 1) * k := by
  unfold searchPos at heq
  exact (add_mod_eq_self_iff len idx _ h).mp heq

/-- If an available element sits `d` steps away (and nothing closer is
available, and no step of the walk was already visited), the cyclic search
returns exactly its index. -/
theorem trace_finds_least (items : List OptionItem) (forward : Bool) :
    ∀ (d idx : Nat) (prevIdxs : List Nat), idx < items.length →
      d < items.length →
      availAt items (searchPos items.length idx forward d) = true →
      (∀ k, k < d → availAt items (searchPos items.length idx forward k) = false) →
      (∀ k, k ≤ d → searchPos items.length idx forward k ∉ prevIdxs) →
      (getAvailableItemTrace items idx forward prevIdxs).1 =
        some (searchPos items.length idx forward d) := by
  intro d
  induction d with
  | zero =>
    intro idx prevIdxs hidx _ hd _ hprev
    rw [searchPos_zero items.length idx forward hidx] at hd ⊢
    have hget : items[idx]? = some (items.get ⟨idx, hidx⟩) := by
      rw [List.getElem?_eq_getElem hidx]
      rfl
    have hunav : isUnavailable (items.get ⟨idx, hidx⟩) = false := by
      unfold availAt at hd
      rw [hget] at hd
      simpa using hd
    have hp0 : idx ∉ prevIdxs := by
      have := hprev 0 (Nat.le_refl 0)
      rwa [searchPos_zero items.length idx forward hidx] at this
    rw [trace_found items idx forward prevIdxs _ hget hp0 hunav]
  | succ d ih =>
    intro idx prevIdxs hidx hdlen hd hlt hprev
    have hlen : 0 < items.length := Nat.lt_of_le_of_lt (Nat.zero_le idx) hidx
    have h0 : availAt items idx = false := by
      have := hlt 0 (Nat.succ_pos d)
      rwa [searchPos_zero items.length idx forward hidx] at this
    have hget : items[idx]? = some (items.get ⟨idx, hidx⟩) := by
      rw [List.getElem?_eq_getElem hidx]
      rfl
    have hunav : isUnavailable (items.get ⟨idx, hidx⟩) = true := by
      unfold availAt at h0
      rw [hget] at h0
      simpa using h0
    have hmem : idx ∉ prevIdxs := by
      have := hprev 0 (Nat.zero_le _)
      rwa [searchPos_zero items.length idx forward hidx] at this
    rw [trace_unav items idx forward prevIdxs _ hget hmem hunav]
    show (getAvailableItemTrace items (stepIdx items.length idx forward) forward
      (prevIdxs ++ [idx])).1 = _
    rw [← searchPos_step items.length idx forward d hlen]
    apply ih (stepIdx items.length idx forward) (prevIdxs ++ [idx])
      (stepIdx_lt items.length idx forward hlen)
      (Nat.lt_of_succ_lt hdlen)
    · rw [searchPos_step items.length idx forward d hlen]
      exact hd
    · intro k hk
      rw [searchPos_step items.length idx forward k hlen]
      exact hlt (k + 1) (Nat.succ_lt_succ hk)
    · intro k hk
      rw [searchPos_step items.length idx forward k hlen, List.mem_append]
      rintro (hin | hin)
      · exact hprev (k + 1) (Nat.succ_le_succ hk) hin
      · have heq : searchPos items.length idx forward (k + 1) = idx := by
          simpa using hin
        have hdvd := searchPos_eq_self_dvd items.length idx forward (k + 1) hidx heq
        have hk1len : k + 1 < items.length := Nat.lt_of_le_of_lt
          (Nat.succ_le_succ hk) hdlen
        cases forward with
        | true =>
          simp only [if_true, Nat.one_mul] at hdvd
          exact absurd (Nat.le_of_dvd (Nat.succ_pos k) hdvd)
            (Nat.not_le_of_lt hk1len)
        | false =>
          simp only [if_false, Bool.false_eq_true] at hdvd
          rcases Nat.lt_or_ge items.length 2 with h2 | h2
          · have hl1 : items.length = 1 := by omega
            have hi0 : idx = 0 := by omega
            have hps : searchPos items.length idx false (d + 1) = idx := by
              unfold searchPos
              rw [hl1, Nat.mod_one, hi0]
            rw [hps] at hd
            rw [hd] at h0
            cases h0
          · have hco : Nat.Coprime items.length (items.length - 1) := by
              have hc1 : Nat.Coprime (items.length - 1 + 1) (items.length - 1) := by
                simp [Nat.Coprime, Nat.succ_sub_one, Nat.gcd_comm]
              rwa [Nat.sub_add_cancel hlen] at hc1
            have hdvd' : items.length ∣ (k + 1) * (items.length - 1) := by
              rwa [Nat.mul_comm] at hdvd
            have := Nat.Coprime.dvd_of_dvd_mul_right hco hdvd'
            exact absurd (Nat.le_of_dvd (Nat.succ_pos k) this)
              (Nat.not_le_of_lt hk1len)

/-- Every index of the collection is hit by the cyclic walk within `len`
steps, in either direction. -/
theorem exists_searchPos_hit (len idx j : Nat) (forward : Bool)
    (hidx : idx < len) (hj : j < len) :
    ∃ d, d < len ∧ searchPos len idx forward d = j := by
  have hlen : 0 < len := Nat.lt_of_le_of_lt (Nat.zero_le idx) hidx
  haveI : NeZero len := ⟨by omega⟩
  cases forward with
  | true =>
    refine ⟨(j + len - idx) % len, Nat.mod_lt _ hlen, ?_⟩
    have hlt : searchPos len idx true ((j + len - idx) % len) < len := Nat.mod_lt _ hlen
    have hcast : ((searchPos len idx true ((j + len - idx) % len) : ℕ) : ZMod len)
        = ((j : ℕ) : ZMod len) := by
      unfold searchPos
      push_cast [ZMod.natCast_mod, Nat.cast_sub (by omega : idx ≤ j + len)]
      ring_nf
      simp [ZMod.natCast_self]
    have hv := congrArg ZMod.val hcast
    rwa [ZMod.val_cast_of_lt hlt, ZMod.val_cast_of_lt hj] at hv
  | false =>
    refine ⟨(idx + len - j) % len, Nat.mod_lt _ hlen, ?_⟩
    have hlt : searchPos len idx false ((idx + len - j) % len) < len := Nat.mod_lt _ hlen
    have hcast : ((searchPos len idx false ((idx + len - j) % len) : ℕ) : ZMod len)
        = ((j : ℕ) : ZMod len) := by
      unfold searchPos
      push_cast [ZMod.natCast_mod, Nat.cast_sub (by omega : j ≤ idx + len),
        Nat.cast_sub (by omega : 1 ≤ len)]
      simp [ZMod.natCast_self]
    have hv := congrArg ZMod.val hcast
    rwa [ZMod.val_cast_of_lt hlt, ZMod.val_cast_of_lt hj] at hv

/-- Whenever the cyclic search reports an index, that index is in range,
available, and was not in the visited accumulator. -/
theorem trace_fst_props (items : List OptionItem) (idx : Nat) (forward : Bool)
    (prevIdxs : List Nat) (j : Nat)
    (h : (getAvailableItemTrace items idx forward prevIdxs).1 = some j) :
    j < items.length ∧ availAt items j = true ∧ j ∉ prevIdxs := by
  refine getAvailableItemTrace.induct items
    (motive := fun idx forward prevIdxs => ∀ j,
      (getAvailableItemTrace items idx forward prevIdxs).1 = some j →
      j < items.length ∧ availAt items j = true ∧ j ∉ prevIdxs)
    ?_ ?_ ?_ ?_ idx forward prevIdxs j h
  · intro idx forward prevIdxs hoob j hj
    rw [trace_oob items idx forward prevIdxs hoob] at hj
    cases hj
  · intro idx forward prevIdxs item hget hmem j hj
    rw [trace_visited items idx forward prevIdxs item hget hmem] at hj
    cases hj
  · intro idx forward prevIdxs item hget hmem hunav ih j hj
    rw [trace_unav items idx forward prevIdxs item hget hmem hunav] at hj
    have hres := ih j hj
    refine ⟨hres.1, hres.2.1, fun hc => hres.2.2 (List.mem_append.mpr (Or.inl hc))⟩
  · intro idx forward prevIdxs item hget hmem hunav j hj
    rw [trace_found items idx forward prevIdxs item hget hmem
      (by simpa using hunav)] at hj
    have hji : idx = j := by simpa using hj
    subst hji
    refine ⟨(List.getElem?_eq_some.mp hget).1, ?_, hmem⟩
    unfold availAt
    rw [hget]
    simpa using hunav

/-- The indices examined by the cyclic search are pairwise distinct, in
range, and disjoint from the initial visited accumulator. -/
theorem trace_snd_props (items : List OptionItem) (idx : Nat) (forward : Bool)
    (prevIdxs : List Nat) :
    (getAvailableItemTrace items idx forward prevIdxs).2.Nodup ∧
      ∀ j ∈ (getAvailableItemTrace items idx forward prevIdxs).2,
        j < items.length ∧ j ∉ prevIdxs := by
  refine getAvailableItemTrace.induct items
    (motive := fun idx forward prevIdxs =>
      (getAvailableItemTrace items idx forward prevIdxs).2.Nodup ∧
      ∀ j ∈ (getAvailableItemTrace items idx forward prevIdxs).2,
        j < items.length ∧ j ∉ prevIdxs)
    ?_ ?_ ?_ ?_ idx forward prevIdxs
  · intro idx forward prevIdxs hoob
    rw [trace_oob items idx forward prevIdxs hoob]
    exact ⟨List.nodup_nil, by intro j hj; cases hj⟩
  · intro idx forward prevIdxs item hget hmem
    rw [trace_visited items idx forward prevIdxs item hget hmem]
    exact ⟨List.nodup_nil, by intro j hj; cases hj⟩
  · intro idx forward prevIdxs item hget hmem hunav ih
    rw [trace_unav items idx forward prevIdxs item hget hmem hunav]
    constructor
    · refine List.Nodup.cons ?_ ih.1
      intro hc
      exact (ih.2 idx hc).2 (List.mem_append.mpr (Or.inr (by simp)))
    · intro j hj
      rcases List.mem_cons.mp hj with hj | hj
      · subst hj
        exact ⟨(List.getElem?_eq_some.mp hget).1, hmem⟩
      · have := ih.2 j hj
        exact ⟨this.1, fun hc => this.2 (List.mem_append.mpr (Or.inl hc))⟩
  · intro idx forward prevIdxs item hget hmem hunav
    rw [trace_found items idx forward prevIdxs item hget hmem
      (by simpa using hunav)]
    constructor
    · exact List.nodup_singleton idx
    · intro j hj
      have hji : j = idx := by simpa using hj
      subst hji
      exact ⟨(List.getElem?_eq_some.mp hget).1, hmem⟩

/-- The cyclic search examines at most `|items|` candidate indices. -/
theorem trace_examined_le (items : List OptionItem) (idx : Nat) (forward : Bool)
    (prevIdxs : List Nat) :
    (getAvailableItemTrace items idx forward prevIdxs).2.length ≤ items.length := by
  have h := trace_snd_props items idx forward prevIdxs
  have hsub : (getAvailableItemTrace items idx forward prevIdxs).2.toFinset ⊆
      Finset.range items.length := by
    intro x hx
    rw [List.mem_toFinset] at hx
    exact Finset.mem_range.mpr (h.2 x hx).1
  have hcard := Finset.card_le_card hsub
  rw [Finset.card_range] at hcard
  rwa [List.toFinset_card_of_nodup h.1] at hcard

theorem availAt_false_of_all_unav (items : List OptionItem)
    (hall : ∀ item ∈ items, isUnavailable item = true) (j : Nat) :
    availAt items j = false := by
  unfold availAt
  cases hget : items[j]? with
  | none => rfl
  | some item =>
    have hmem : item ∈ items := by
      have hj : j < items.length := (List.getElem?_eq_some.mp hget).1
      have := (List.getElem?_eq_some.mp hget).2
      rw [← this]
      exact List.getElem_mem hj
    simp [hall item hmem]

/-- When every element of the collection is unavailable, the cyclic search
reports nothing. -/
theorem trace_fst_none_of_all_unav (items : List OptionItem) (idx : Nat)
    (forward : Bool) (prevIdxs : List Nat)
    (hall : ∀ item ∈ items, isUnavailable item = true) :
    (getAvailableItemTrace items idx forward prevIdxs).1 = none := by
  cases hres : (getAvailableItemTrace items idx forward prevIdxs).1 with
  | none => rfl
  | some j =>
    have hprops := trace_fst_props items idx forward prevIdxs j hres
    rw [availAt_false_of_all_unav items hall j] at hprops
    cases hprops.2.1

theorem getAvailableItem_none_of_all_unav (items : List OptionItem) (idx : Nat)
    (forward : Bool) (prevIdxs : List Nat)
    (hall : ∀ item ∈ items, isUnavailable item = true) :
    getAvailableItem items idx forward prevIdxs = none := by
  rw [getAvailableItem_eq_trace,
    trace_fst_none_of_all_unav items idx forward prevIdxs hall]
  rfl

/-- Translation of `getInitialAvailableItem`
(`src/lib/Select/components/Controller/utils.ts` lines 199-223): the search
is restricted to the available currently-selected elements when there are
any, otherwise it runs over the full collection, starting at index `0` in
the requested direction. -/
def getInitialAvailableItem (items : List OptionItem) (forward : Bool) :
    Option OptionItem :=
  let selectedItems :=
    items.filter (fun item => !(isUnavailable item) && item.dataSelected)
  getAvailableItem (if selectedItems.length > 0 then selectedItems else items)
    0 forward []

/-- The Down-arrow branch of `handleKeyDown` with the list open (utils.ts
lines 242-254): with an active descendant at index `currentIdx` the search
starts forward from `(currentIdx + 1) % items.length`; with no active
descendant it delegates to `getInitialAvailableItem`.  The active
descendant is modelled by its index in the collection, which is what
`items.findIndex(item => item === activeDescendant)` recovers for an
element of the collection. -/
def moveNextItem (items : List OptionItem) (active : Option Nat) :
    Option OptionItem :=
  match active with
  | some currentIdx =>
    getAvailableItem items ((currentIdx + 1) % items.length) true []
  | none => getInitialAvailableItem items true

/-- The Up-arrow branch of `handleKeyDown` with the list open (utils.ts
lines 275-288): with an active descendant at index `currentIdx` the search
starts backward from `(currentIdx - 1 + items.length) % items.length`
(written `currentIdx + items.length - 1` for naturals); with no active
descendant it delegates to `getInitialAvailableItem`. -/
def movePrevItem (items : List OptionItem) (active : Option Nat) :
    Option OptionItem :=
  match active with
  | some currentIdx =>
    getAvailableItem items ((currentIdx + items.length - 1) % items.length)
      false []
  | none => getInitialAvailableItem items false

/-- Index-level form of the Down-arrow transition: the new active index is
the one whose element `moveNextItem` returns. -/
def moveNextIdx (items : List OptionItem) (active : Option Nat) : Option Nat :=
  active.bind (fun currentIdx =>
    (getAvailableItemTrace items ((currentIdx + 1) % items.length) true []).1)

theorem moveNextItem_eq_idx (items : List OptionItem) (i : Nat) :
    moveNextItem items (some i) =
      (moveNextIdx items (some i)).bind (fun j => items[j]?) := by
  rw [show moveNextItem items (some i) =
      getAvailableItem items ((i + 1) % items.length) true [] from rfl,
    show moveNextIdx items (some i) =
      (getAvailableItemTrace items ((i + 1) % items.length) true []).1 from rfl,
    getAvailableItem_eq_trace]

/-- Indices of the available elements, in visual order. -/
def availIdxs (items : List OptionItem) : List Nat :=
  (List.range items.length).filter (fun j => availAt items j)

/-- The number of available elements of the collection. -/
def availCount (items : List OptionItem) : Nat := (availIdxs items).length

theorem mem_availIdxs (items : List OptionItem) (j : Nat) :
    j ∈ availIdxs items ↔ j < items.length ∧ availAt items j = true := by
  unfold availIdxs
  rw [List.mem_filter, List.mem_range]

theorem availIdxs_sorted (items : List OptionItem) :
    List.Pairwise (· < ·) (availIdxs items) := by
  unfold availIdxs
  exact List.Pairwise.sublist (List.filter_sublist _) (List.pairwise_lt_range _)

theorem availIdxs_get_strictMono (items : List OptionItem) :
    StrictMono (availIdxs items).get :=
  List.Sorted.get_strictMono (availIdxs_sorted items)

theorem availAt_false_below_head (items : List OptionItem)
    (h0 : 0 < (availIdxs items).length) (p : Nat)
    (hp : p < (availIdxs items).get ⟨0, h0⟩) :
    availAt items p = false := by
  rcases Bool.dichotomy (availAt items p) with hb | hb
  · exact hb
  · exfalso
    have hhead := (mem_availIdxs items _).mp (List.get_mem (availIdxs items) 0 h0)
    have hplen : p < items.length := Nat.lt_trans hp hhead.1
    obtain ⟨s, hs⟩ := List.mem_iff_get.mp ((mem_availIdxs items p).mpr ⟨hplen, hb⟩)
    have hle : (availIdxs items).get ⟨0, h0⟩ ≤ (availIdxs items).get s := by
      apply (availIdxs_get_strictMono items).monotone
      exact Fin.le_def.mpr (Nat.zero_le _)
    rw [hs] at hle
    exact Nat.not_le_of_lt hp hle

theorem availAt_false_above_last (items : List OptionItem) (r : Nat)
    (hr : r < (availIdxs items).length) (hrm : r + 1 = (availIdxs items).length)
    (p : Nat) (hplen : p < items.length)
    (hp : (availIdxs items).get ⟨r, hr⟩ < p) :
    availAt items p = false := by
  rcases Bool.dichotomy (availAt items p) with hb | hb
  · exact hb
  · exfalso
    obtain ⟨s, hs⟩ := List.mem_iff_get.mp ((mem_availIdxs items p).mpr ⟨hplen, hb⟩)
    have hle : (availIdxs items).get s ≤ (availIdxs items).get ⟨r, hr⟩ := by
      apply (availIdxs_get_strictMono items).monotone
      have hs2 := s.2
      rw [Fin.le_def]
      show s.1 ≤ r
      omega
    rw [hs] at hle
    exact Nat.not_le_of_lt hp hle

theorem availAt_false_between (items : List OptionItem) (r : Nat)
    (hr1 : r + 1 < (availIdxs items).length) (p : Nat)
    (h1 : (availIdxs items).get ⟨r, Nat.lt_of_succ_lt hr1⟩ < p)
    (h2 : p < (availIdxs items).get ⟨r + 1, hr1⟩) :
    availAt items p = false := by
  rcases Bool.dichotomy (availAt items p) with hb | hb
  · exact hb
  · exfalso
    have hnext := (mem_availIdxs items _).mp
      (List.get_mem (availIdxs items) (r + 1) hr1)
    have hplen : p < items.length := Nat.lt_trans h2 hnext.1
    obtain ⟨s, hs⟩ := List.mem_iff_get.mp ((mem_availIdxs items p).mpr ⟨hplen, hb⟩)
    have hgt : (⟨r, Nat.lt_of_succ_lt hr1⟩ : Fin (availIdxs items).length) < s := by
      apply (availIdxs_get_strictMono items).lt_iff_lt.mp
      rw [hs]
      exact h1
    have hlt : s < (⟨r + 1, hr1⟩ : Fin (availIdxs items).length) := by
      apply (availIdxs_get_strictMono items).lt_iff_lt.mp
      rw [hs]
      exact h2
    have h5 : r < s.1 := by
      have := Fin.lt_def.mp hgt
      simpa using this
    have h6 : s.1 < r + 1 := by
      have := Fin.lt_def.mp hlt
      simpa using this
    omega

/-- Moving forward from the `r`-th available index, the cyclic search lands
on the `(r+1 mod m)`-th available index: the successor map of the Down-arrow
branch is the cyclic successor on the list of available indices. -/
theorem succ_avail (items : List OptionItem) (r : Nat)
    (hr : r < (availIdxs items).length) (s : Nat)
    (hs : s < (availIdxs items).length)
    (hseq : s = (r + 1) % (availIdxs items).length) :
    (getAvailableItemTrace items
        (((availIdxs items).get ⟨r, hr⟩ + 1) % items.length) true []).1 =
      some ((availIdxs items).get ⟨s, hs⟩) := by
  have hm0 : 0 < (availIdxs items).length := Nat.lt_of_le_of_lt (Nat.zero_le r) hr
  have hi := (mem_availIdxs items _).mp (List.get_mem (availIdxs items) r hr)
  have hilen := hi.1
  have hlen0 : 0 < items.length := Nat.lt_of_le_of_lt (Nat.zero_le _) hilen
  by_cases hcase : r + 1 < (availIdxs items).length
  · have hs1 : s = r + 1 := by rw [hseq]; exact Nat.mod_eq_of_lt hcase
    subst hs1
    have hj := (mem_availIdxs items _).mp (List.get_mem (availIdxs items) (r + 1) hs)
    have hjlen := hj.1
    have hij : (availIdxs items).get ⟨r, hr⟩ < (availIdxs items).get ⟨r + 1, hs⟩ :=
      availIdxs_get_strictMono items (Fin.mk_lt_mk.mpr (Nat.lt_succ_self r))
    have hi1len : (availIdxs items).get ⟨r, hr⟩ + 1 < items.length :=
      Nat.lt_of_le_of_lt (Nat.succ_le_of_lt hij) hjlen
    rw [Nat.mod_eq_of_lt hi1len]
    have hpos : searchPos items.length ((availIdxs items).get ⟨r, hr⟩ + 1) true
        ((availIdxs items).get ⟨r + 1, hs⟩ - ((availIdxs items).get ⟨r, hr⟩ + 1)) =
        (availIdxs items).get ⟨r + 1, hs⟩ := by
      unfold searchPos
      rw [if_pos rfl, one_mul]
      have harith : (availIdxs items).get ⟨r, hr⟩ + 1 +
          ((availIdxs items).get ⟨r + 1, hs⟩ -
            ((availIdxs items).get ⟨r, hr⟩ + 1)) =
          (availIdxs items).get ⟨r + 1, hs⟩ := by omega
      rw [harith, Nat.mod_eq_of_lt hjlen]
    rw [← hpos]
    apply trace_finds_least items true _ _ [] hi1len
    · omega
    · rw [hpos]
      exact hj.2
    · intro k hk
      have hposk : searchPos items.length ((availIdxs items).get ⟨r, hr⟩ + 1) true k =
          (availIdxs items).get ⟨r, hr⟩ + 1 + k := by
        unfold searchPos
        rw [if_pos rfl, one_mul, Nat.mod_eq_of_lt (by omega)]
      rw [hposk]
      apply availAt_false_between items r hcase
      · exact (by omega :
          (availIdxs items).get ⟨r, Nat.lt_of_succ_lt hcase⟩ <
            (availIdxs items).get ⟨r, hr⟩ + 1 + k)
      · exact (by omega :
          (availIdxs items).get ⟨r, hr⟩ + 1 + k <
            (availIdxs items).get ⟨r + 1, hcase⟩)
    · intro k _hk
      exact List.not_mem_nil _
  · have hrm : r + 1 = (availIdxs items).length := by omega
    have hs0 : s = 0 := by rw [hseq, hrm, Nat.mod_self]
    subst hs0
    have hj := (mem_availIdxs items _).mp (List.get_mem (availIdxs items) 0 hs)
    have hjlen := hj.1
    have hji : (availIdxs items).get ⟨0, hs⟩ ≤ (availIdxs items).get ⟨r, hr⟩ :=
      (availIdxs_get_strictMono items).monotone (Fin.le_def.mpr (Nat.zero_le _))
    rcases Nat.lt_or_ge ((availIdxs items).get ⟨r, hr⟩ + 1) items.length with hi1 | hi1
    · rw [Nat.mod_eq_of_lt hi1]
      have hpos : searchPos items.length ((availIdxs items).get ⟨r, hr⟩ + 1) true
          (items.length - ((availIdxs items).get ⟨r, hr⟩ + 1) +
            (availIdxs items).get ⟨0, hs⟩) =
          (availIdxs items).get ⟨0, hs⟩ := by
        unfold searchPos
        rw [if_pos rfl, one_mul]
        have harith : (availIdxs items).get ⟨r, hr⟩ + 1 +
            (items.length - ((availIdxs items).get ⟨r, hr⟩ + 1) +
              (availIdxs items).get ⟨0, hs⟩) =
            items.length + (availIdxs items).get ⟨0, hs⟩ := by omega
        rw [harith, Nat.add_mod_left, Nat.mod_eq_of_lt hjlen]
      rw [← hpos]
      apply trace_finds_least items true _ _ [] hi1
      · omega
      · rw [hpos]
        exact hj.2
      · intro k hk
        rcases Nat.lt_or_ge k (items.length - ((availIdxs items).get ⟨r, hr⟩ + 1))
          with hk1 | hk1
        · have hposk : searchPos items.length
              ((availIdxs items).get ⟨r, hr⟩ + 1) true k =
              (availIdxs items).get ⟨r, hr⟩ + 1 + k := by
            unfold searchPos
            rw [if_pos rfl, one_mul, Nat.mod_eq_of_lt (by omega)]
          rw [hposk]
          exact availAt_false_above_last items r hr hrm
            ((availIdxs items).get ⟨r, hr⟩ + 1 + k) (by omega) (by omega)
        · have hposk : searchPos items.length
              ((availIdxs items).get ⟨r, hr⟩ + 1) true k =
              (availIdxs items).get ⟨r, hr⟩ + 1 + k - items.length := by
            unfold searchPos
            rw [if_pos rfl, one_mul, Nat.mod_eq_sub_mod (by omega),
              Nat.mod_eq_of_lt (by omega)]
          rw [hposk]
          exact availAt_false_below_head items hm0 _ (by omega)
      · intro k _hk
        exact List.not_mem_nil _
    · have hi1' : (availIdxs items).get ⟨r, hr⟩ + 1 = items.length := by omega
      rw [hi1', Nat.mod_self]
      have hpos : searchPos items.length 0 true ((availIdxs items).get ⟨0, hs⟩) =
          (availIdxs items).get ⟨0, hs⟩ := by
        unfold searchPos
        rw [if_pos rfl, one_mul, Nat.zero_add, Nat.mod_eq_of_lt hjlen]
      rw [← hpos]
      apply trace_finds_least items true _ _ [] hlen0
      · omega
      · rw [hpos]
        exact hj.2
      · intro k hk
        have hposk : searchPos items.length 0 true k = k := by
          unfold searchPos
          rw [if_pos rfl, one_mul, Nat.zero_add, Nat.mod_eq_of_lt (by omega)]
        rw [hposk]
        exact availAt_false_below_head items hm0 k (by omega)
      · intro k _hk
        exact List.not_mem_nil _

theorem moveNextIdx_iterate (items : List OptionItem) (n : Nat) :
    ∀ (r : Nat) (hr : r < (availIdxs items).length) (s : Nat)
      (hs : s < (availIdxs items).length),
      s = (r + n) % (availIdxs items).length →
      (moveNextIdx items)^[n] (some ((availIdxs items).get ⟨r, hr⟩)) =
        some ((availIdxs items).get ⟨s, hs⟩) := by
  induction n with
  | zero =>
    intro r hr s hs hseq
    have hsr : s = r := by rw [hseq, Nat.add_zero, Nat.mod_eq_of_lt hr]
    subst hsr
    rfl
  | succ n ih =>
    intro r hr s hs hseq
    rw [Function.iterate_succ_apply']
    have hm0 : 0 < (availIdxs items).length :=
      Nat.lt_of_le_of_lt (Nat.zero_le r) hr
    have hrn : (r + n) % (availIdxs items).length < (availIdxs items).length :=
      Nat.mod_lt _ hm0
    rw [ih r hr ((r + n) % (availIdxs items).length) hrn rfl]
    show (getAvailableItemTrace items
        (((availIdxs items).get ⟨(r + n) % (availIdxs items).length, hrn⟩ + 1) %
          items.length) true []).1 = _
    apply succ_avail items ((r + n) % (availIdxs items).length) hrn s hs
    rw [hseq, Nat.mod_add_mod]
    rfl

/-- Starting from an available index, applying the Down-arrow transition as
many times as there are available elements returns to the same index. -/
theorem moveNextIdx_closure (items : List OptionItem) (i : Nat)
    (hi : i < items.length) (hav : availAt items i = true) :
    (moveNextIdx items)^[availCount items] (some i) = some i := by
  have hmem : i ∈ availIdxs items := (mem_availIdxs items i).mpr ⟨hi, hav⟩
  obtain ⟨⟨r, hr⟩, hget⟩ := List.mem_iff_get.mp hmem
  rw [← hget]
  apply moveNextIdx_iterate items (availCount items) r hr r hr
  show r = (r + (availIdxs items).length) % (availIdxs items).length
  rw [Nat.add_mod_right, Nat.mod_eq_of_lt hr]

/-- With at least one available element, the cyclic search starting anywhere
in range reports an available in-range index. -/
theorem trace_fst_some_of_exists (items : List OptionItem) (forward : Bool)
    (idx : Nat) (hidx : idx < items.length)
    (hex : ∃ j, j < items.length ∧ availAt items j = true) :
    ∃ p, (getAvailableItemTrace items idx forward []).1 = some p ∧
      p < items.length ∧ availAt items p = true := by
  obtain ⟨j, hjlen, hjav⟩ := hex
  obtain ⟨d0, hd0len, hd0⟩ := exists_searchPos_hit items.length idx j forward hidx hjlen
  have hexP : ∃ d, availAt items (searchPos items.length idx forward d) = true :=
    ⟨d0, by rw [hd0]; exact hjav⟩
  have hfind := Nat.find_spec hexP
  have hfle : Nat.find hexP ≤ d0 := Nat.find_min' hexP (by rw [hd0]; exact hjav)
  have hlt : ∀ k, k < Nat.find hexP →
      availAt items (searchPos items.length idx forward k) = false := by
    intro k hk
    have hnk := Nat.find_min hexP hk
    rcases Bool.dichotomy (availAt items (searchPos items.length idx forward k))
      with hb | hb
    · exact hb
    · exact absurd hb hnk
  refine ⟨searchPos items.length idx forward (Nat.find hexP), ?_, ?_, hfind⟩
  · exact trace_finds_least items forward (Nat.find hexP) idx []
      hidx (Nat.lt_of_le_of_lt hfle hd0len) hfind hlt
      (fun k _ => List.not_mem_nil _)
  · unfold searchPos
    exact Nat.mod_lt _ (Nat.lt_of_le_of_lt (Nat.zero_le idx) hidx)

theorem getAvailableItem_some_of_exists (items : List OptionItem) (forward : Bool)
    (idx : Nat) (hidx : idx < items.length)
    (hex : ∃ j, j < items.length ∧ availAt items j = true) :
    ∃ it, getAvailableItem items idx forward [] = some it ∧
      isUnavailable it = false := by
  obtain ⟨p, hp, hplen, hpav⟩ := trace_fst_some_of_exists items forward idx hidx hex
  refine ⟨items.get ⟨p, hplen⟩, ?_, ?_⟩
  · rw [getAvailableItem_eq_trace, hp]
    show items[p]? = some (items.get ⟨p, hplen⟩)
    rw [List.getElem?_eq_getElem hplen]
    rfl
  · unfold availAt at hpav
    rw [List.getElem?_eq_getElem hplen] at hpav
    simpa using hpav

theorem getInitialAvailableItem_eq (items : List OptionItem) (forward : Bool) :
    getInitialAvailableItem items forward =
      getAvailableItem
        (if (items.filter
              (fun item => !(isUnavailable item) && item.dataSelected)).length > 0
          then items.filter (fun item => !(isUnavailable item) && item.dataSelected)
          else items) 0 forward [] := rfl

theorem getInitialAvailableItem_some_of_exists (items : List OptionItem)
    (forward : Bool)
    (hex : ∃ j, j < items.length ∧ availAt items j = true) :
    ∃ it, getInitialAvailableItem items forward = some it ∧
      isUnavailable it = false := by
  rw [getInitialAvailableItem_eq]
  cases hsel : items.filter (fun item => !(isUnavailable item) && item.dataSelected)
    with
  | nil =>
    simp only [List.length_nil, Nat.lt_irrefl, if_false]
    have hlen0 : 0 < items.length := by
      obtain ⟨j, hj, _⟩ := hex
      omega
    exact getAvailableItem_some_of_exists items forward 0 hlen0 hex
  | cons hd tl =>
    simp only [List.length_cons, if_pos (Nat.succ_pos tl.length)]
    have hhd : hd ∈ items.filter
        (fun item => !(isUnavailable item) && item.dataSelected) := by
      rw [hsel]
      exact List.mem_cons_self hd tl
    have hpred := (List.mem_filter.mp hhd).2
    have hunav : isUnavailable hd = false := by
      have := (Bool.and_eq_true _ _).mp hpred
      simpa using this.1
    have hget0 : (hd :: tl)[0]? = some hd := by simp
    exact ⟨hd, getAvailableItem_found (hd :: tl) 0 forward [] hd hget0
      (List.not_mem_nil 0) hunav, hunav⟩

/-- A tab ref slot: `none` models a `React.RefObject` whose `current` is
`null`, `some t` a mounted tab button with its `disabled` flag
(`src/lib/TabGroup/Tab/Tab.tsx`). -/
structure TabItem where
  disabled : Bool
  deriving DecidableEq, Repr

/-- The availability test of `getAvailableTab` (Tab.tsx line 118):
`!tabRef.current || tabRef.current.disabled`. -/
def tabUnavailable (tabRef : Option TabItem) : Bool :=
  match tabRef with
  | none => true
  | some t => t.disabled

/-- Translation of `getAvailableTab` (`src/lib/TabGroup/Tab/Tab.tsx` lines
109-125):

```
const getAvailableTab = (idx, forward, prevIdxs = []) => {
  const tabRef = tabs[idx];
  if (prevIdxs.includes(idx)) return null;
  if (!tabRef.current || tabRef.current.disabled) {
    const newIdx = (forward ? idx + 1 : idx - 1 + tabs.length) % tabs.length;
    return getAvailableTab(newIdx, forward, [...prevIdxs, idx]);
  }
  return tabRef;
};
```

The returned ref is represented by its index (`Except.ok (some idx)` stands
for `tabs[idx]`).  When `idx` is out of range and not yet visited, the
source dereferences `undefined.current` and throws, modelled as
`Except.error ()`. -/
def getAvailableTab (tabs : List (Option TabItem)) (idx : Nat) (forward : Bool)
    (prevIdxs : List Nat) : Except Unit (Option Nat) :=
  if idx ∈ prevIdxs then .ok none
  else
    match h : tabs[idx]? with
    | none => .error ()
    | some tabRef =>
      if tabUnavailable tabRef then
        getAvailableTab tabs (stepIdx tabs.length idx forward) forward
          (prevIdxs ++ [idx])
      else .ok (some idx)
termination_by tabs.length - visitedCount tabs.length prevIdxs
decreasing_by
  exact searchMeasure_decreases tabs.length idx prevIdxs
    ((List.getElem?_eq_some.mp h).1) (by assumption)

theorem getAvailableTab_mem (tabs : List (Option TabItem)) (idx : Nat)
    (forward : Bool) (prevIdxs : List Nat) (hmem : idx ∈ prevIdxs) :
    getAvailableTab tabs idx forward prevIdxs = .ok none := by
  rw [getAvailableTab, if_pos hmem]

theorem getAvailableTab_unav (tabs : List (Option TabItem)) (idx : Nat)
    (forward : Bool) (prevIdxs : List Nat) (tabRef : Option TabItem)
    (hmem : idx ∉ prevIdxs) (h : tabs[idx]? = some tabRef)
    (hunav : tabUnavailable tabRef = true) :
    getAvailableTab tabs idx forward prevIdxs =
      getAvailableTab tabs (stepIdx tabs.length idx forward) forward
        (prevIdxs ++ [idx]) := by
  rw [getAvailableTab, if_neg hmem]
  split
  · next heq => rw [heq] at h; cases h
  · next tabRef' heq =>
    rw [h] at heq
    cases heq
    rw [if_pos hunav]

theorem getAvailableTab_found (tabs : List (Option TabItem)) (idx : Nat)
    (forward : Bool) (prevIdxs : List Nat) (tabRef : Option TabItem)
    (hmem : idx ∉ prevIdxs) (h : tabs[idx]? = some tabRef)
    (hav : tabUnavailable tabRef = false) :
    getAvailableTab tabs idx forward prevIdxs = .ok (some idx) := by
  rw [getAvailableTab, if_neg hmem]
  split
  · next heq => rw [heq] at h; cases h
  · next tabRef' heq =>
    rw [h] at heq
    cases heq
    rw [if_neg (by simp [hav])]

/-- With every tab unavailable, `getAvailableTab` terminates with `null`
(no exception) from any in-range start. -/
theorem getAvailableTab_none_of_all_unav (tabs : List (Option TabItem))
    (forward : Bool)
    (hall : ∀ t ∈ tabs, tabUnavailable t = true) (idx : Nat)
    (prevIdxs : List Nat) (hidx : idx < tabs.length) :
    getAvailableTab tabs idx forward prevIdxs = .ok none := by
  refine getAvailableTab.induct tabs
    (motive := fun idx forward prevIdxs => idx < tabs.length →
      getAvailableTab tabs idx forward prevIdxs = .ok none)
    ?_ ?_ ?_ ?_ idx forward prevIdxs hidx
  · intro idx forward prevIdxs hmem _
    exact getAvailableTab_mem tabs idx forward prevIdxs hmem
  · intro idx forward prevIdxs hmem hoob hlt
    rw [List.getElem?_eq_getElem hlt] at hoob
    cases hoob
  · intro idx forward prevIdxs hmem tabRef hget hunav ih hlt
    rw [getAvailableTab_unav tabs idx forward prevIdxs tabRef hmem hget hunav]
    have hlen0 : 0 < tabs.length := Nat.lt_of_le_of_lt (Nat.zero_le idx) hlt
    exact ih (stepIdx_lt tabs.length idx forward hlen0)
  · intro idx forward prevIdxs hmem tabRef hget hav hlt
    exfalso
    have hm : tabRef ∈ tabs := by
      have h2 := (List.getElem?_eq_some.mp hget).2
      rw [← h2]
      exact List.getElem_mem (List.getElem?_eq_some.mp hget).1
    rw [hall tabRef hm] at hav
    simp at hav

/-- Claim C1: for every collection with at least one available item, the
Down-arrow move (`moveNextItem`) and the Up-arrow move (`movePrevItem`)
terminate (they are total Lean functions) and set the active descendant to
an available item — never `none` and never a disabled or hidden item —
whether the active descendant was a collection index or none; and
iterating the Down-arrow transition exactly `availCount items` times
(the number of available items) from an available active index returns to
the same active index (cyclic closure). -/
theorem c1_move_operations (items : List OptionItem)
    (hex : ∃ j, j < items.length ∧ availAt items j = true) :
    (∀ i, i < items.length →
      (∃ it, moveNextItem items (some i) = some it ∧ isUnavailable it = false) ∧
      (∃ it, movePrevItem items (some i) = some it ∧ isUnavailable it = false)) ∧
    (∃ it, moveNextItem items none = some it ∧ isUnavailable it = false) ∧
    (∃ it, movePrevItem items none = some it ∧ isUnavailable it = false) ∧
    (∀ i, i < items.length → availAt items i = true →
      (moveNextIdx items)^[availCount items] (some i) = some i) := by
  have hlen0 : 0 < items.length := by
    obtain ⟨j, hj, _⟩ := hex
    omega
  refine ⟨?_, ?_, ?_, ?_⟩
  · intro i _hi
    constructor
    · obtain ⟨it, hit, hun⟩ := getAvailableItem_some_of_exists items true
        ((i + 1) % items.length) (Nat.mod_lt _ hlen0) hex
      exact ⟨it, hit, hun⟩
    · obtain ⟨it, hit, hun⟩ := getAvailableItem_some_of_exists items false
        ((i + items.length - 1) % items.length) (Nat.mod_lt _ hlen0) hex
      exact ⟨it, hit, hun⟩
  · obtain ⟨it, hit, hun⟩ := getInitialAvailableItem_some_of_exists items true hex
    exact ⟨it, hit, hun⟩
  · obtain ⟨it, hit, hun⟩ := getInitialAvailableItem_some_of_exists items false hex
    exact ⟨it, hit, hun⟩
  · intro i hi hav
    exact moveNextIdx_closure items i hi hav

/-- Demo collection for the witnesses: index 0 available, index 1 disabled. -/
def demoItems : List OptionItem :=
  [⟨false, false, false, false⟩, ⟨true, false, false, false⟩]

/-- Demo collection with no available item. -/
def demoAllUnav : List OptionItem := [⟨true, false, false, false⟩]

/-- Demo collection whose index 1 is available and selected. -/
def demoSelected : List OptionItem :=
  [⟨true, false, false, false⟩, ⟨false, false, false, true⟩]

theorem c1_move_operations_witness :
    (∃ j, j < demoItems.length ∧ availAt demoItems j = true) ∧
    ((∀ i, i < demoItems.length →
      (∃ it, moveNextItem demoItems (some i) = some it ∧
        isUnavailable it = false) ∧
      (∃ it, movePrevItem demoItems (some i) = some it ∧
        isUnavailable it = false)) ∧
    (∃ it, moveNextItem demoItems none = some it ∧ isUnavailable it = false) ∧
    (∃ it, movePrevItem demoItems none = some it ∧ isUnavailable it = false) ∧
    (∀ i, i < demoItems.length → availAt demoItems i = true →
      (moveNextIdx demoItems)^[availCount demoItems] (some i) = some i)) :=
  ⟨⟨0, by decide, by decide⟩,
    c1_move_operations demoItems ⟨0, by decide, by decide⟩⟩

/-- Claim C2: when zero items are available (the empty collection
included), the Down-arrow move, the Up-arrow move and the initial search
all return `none` without raising an exception, and the cyclic search
examines at most `|items|` candidate indices; the sibling `getAvailableTab`
search likewise returns `null` from any in-range start when every tab is
unavailable. -/
theorem c2_zero_available (items : List OptionItem)
    (hall : ∀ item ∈ items, isUnavailable item = true) :
    (∀ active, moveNextItem items active = none) ∧
    (∀ active, movePrevItem items active = none) ∧
    (∀ forward, getInitialAvailableItem items forward = none) ∧
    (∀ idx forward prevIdxs,
      (getAvailableItemTrace items idx forward prevIdxs).2.length ≤
        items.length) ∧
    (∀ (tabs : List (Option TabItem)) (forward : Bool),
      (∀ t ∈ tabs, tabUnavailable t = true) →
      ∀ idx prevIdxs, idx < tabs.length →
        getAvailableTab tabs idx forward prevIdxs = Except.ok none) := by
  have hfilter : items.filter
      (fun item => !(isUnavailable item) && item.dataSelected) = [] := by
    apply List.filter_eq_nil.mpr
    intro a ha
    simp [hall a ha]
  have hinit : ∀ forward, getInitialAvailableItem items forward = none := by
    intro forward
    rw [getInitialAvailableItem_eq, hfilter]
    simp only [List.length_nil, Nat.lt_irrefl, if_false]
    exact getAvailableItem_none_of_all_unav items 0 forward [] hall
  refine ⟨?_, ?_, hinit, ?_, ?_⟩
  · intro active
    cases active with
    | none => exact hinit true
    | some i => exact getAvailableItem_none_of_all_unav items _ true [] hall
  · intro active
    cases active with
    | none => exact hinit false
    | some i => exact getAvailableItem_none_of_all_unav items _ false [] hall
  · intro idx forward prevIdxs
    exact trace_examined_le items idx forward prevIdxs
  · intro tabs forward htall idx prevIdxs hidx
    exact getAvailableTab_none_of_all_unav tabs forward htall idx prevIdxs hidx

theorem c2_zero_available_witness :
    (∀ item ∈ demoAllUnav, isUnavailable item = true) ∧
    ((∀ active, moveNextItem demoAllUnav active = none) ∧
    (∀ active, movePrevItem demoAllUnav active = none) ∧
    (∀ forward, getInitialAvailableItem demoAllUnav forward = none) ∧
    (∀ idx forward prevIdxs,
      (getAvailableItemTrace demoAllUnav idx forward prevIdxs).2.length ≤
        demoAllUnav.length) ∧
    (∀ (tabs : List (Option TabItem)) (forward : Bool),
      (∀ t ∈ tabs, tabUnavailable t = true) →
      ∀ idx prevIdxs, idx < tabs.length →
        getAvailableTab tabs idx forward prevIdxs = Except.ok none)) :=
  ⟨by decide, c2_zero_available demoAllUnav (by decide)⟩

/-- Claim C3: an item is treated as unavailable exactly when it is disabled
or hidden, each flag an independently sufficient exclusion criterion: an
available item at the examined index is returned, while a hidden-but-enabled
or disabled-but-visible item is never the search result. -/
theorem c3_exclusion_criteria :
    (∀ item : OptionItem,
      isUnavailable item =
        (item.ariaDisabled || item.dataHidden || item.ariaHidden)) ∧
    (∀ (items : List OptionItem) (idx : Nat) (forward : Bool)
      (hlt : idx < items.length),
      (isUnavailable (items.get ⟨idx, hlt⟩) = false →
        (getAvailableItemTrace items idx forward []).1 = some idx) ∧
      (isUnavailable (items.get ⟨idx, hlt⟩) = true →
        (getAvailableItemTrace items idx forward []).1 ≠ some idx)) := by
  constructor
  · intro item
    rcases item with ⟨a, b, c, d⟩
    show (a || b || c || b) = (a || b || c)
    cases a <;> cases b <;> cases c <;> rfl
  · intro items idx forward hlt
    have hget : items[idx]? = some (items.get ⟨idx, hlt⟩) := by
      rw [List.getElem?_eq_getElem hlt]
      rfl
    constructor
    · intro hav
      rw [trace_found items idx forward [] _ hget (List.not_mem_nil idx) hav]
    · intro hunav hcontra
      have hprops := trace_fst_props items idx forward [] idx hcontra
      have hav := hprops.2.1
      unfold availAt at hav
      rw [hget] at hav
      simp at hav
      rw [show items.get ⟨idx, hlt⟩ = items[idx] from rfl] at hunav
      rw [hunav] at hav
      cases hav

theorem c3_exclusion_criteria_witness :
    (0 < demoItems.length) ∧
    (getAvailableItemTrace demoItems 0 true []).1 = some 0 :=
  ⟨by decide,
    (c3_exclusion_criteria.2 demoItems 0 true (by decide)).1 (by decide)⟩

/-- Claim C4: `getInitialAvailableItem` restricts the cyclic search to the
available currently-selected items when that subset is non-empty — so the
returned item is then a selected available item — and otherwise searches
the full collection from index 0 in the given direction. -/
theorem c4_initial_selected_first (items : List OptionItem) (forward : Bool) :
    ((items.filter (fun item => !(isUnavailable item) && item.dataSelected)) ≠ [] →
      ∃ it, getInitialAvailableItem items forward = some it ∧
        it.dataSelected = true ∧ isUnavailable it = false) ∧
    ((items.filter (fun item => !(isUnavailable item) && item.dataSelected)) = [] →
      getInitialAvailableItem items forward =
        getAvailableItem items 0 forward []) := by
  constructor
  · intro hne
    rw [getInitialAvailableItem_eq]
    cases hsel : items.filter (fun item => !(isUnavailable item) && item.dataSelected)
      with
    | nil => exact absurd hsel hne
    | cons hd tl =>
      simp only [List.length_cons, if_pos (Nat.succ_pos tl.length)]
      have hhd : hd ∈ items.filter
          (fun item => !(isUnavailable item) && item.dataSelected) := by
        rw [hsel]
        exact List.mem_cons_self hd tl
      have hpred := (List.mem_filter.mp hhd).2
      have hunav : isUnavailable hd = false := by
        have := (Bool.and_eq_true _ _).mp hpred
        simpa using this.1
      have hseld : hd.dataSelected = true := ((Bool.and_eq_true _ _).mp hpred).2
      have hget0 : (hd :: tl)[0]? = some hd := by simp
      exact ⟨hd, getAvailableItem_found (hd :: tl) 0 forward [] hd hget0
        (List.not_mem_nil 0) hunav, hseld, hunav⟩
  · intro hsel
    rw [getInitialAvailableItem_eq, hsel]
    simp only [List.length_nil, Nat.lt_irrefl, if_false]

theorem c4_initial_selected_first_witness :
    ((demoSelected.filter
        (fun item => !(isUnavailable item) && item.dataSelected)) ≠ []) ∧
    (∃ it, getInitialAvailableItem demoSelected true = some it ∧
      it.dataSelected = true ∧ isUnavailable it = false) :=
  ⟨by decide, (c4_initial_selected_first demoSelected true).1 (by decide)⟩

/-- State of a parent menu with one child submenu
(`src/lib/Menu/Menu.tsx`).  `parentActive`/`childActive` are the two
`isMenuActive` flags, `parentActiveItem`/`childActiveItem` the two
`activeElement` pointers (modelled by item indices), and `subTrigger` the
parent's `activeSubTrigger`; the child's `open` prop is
`subTrigger.isSome`. -/
structure MenuDuoState where
  parentActive : Bool
  parentActiveItem : Option Nat
  subTrigger : Option Nat
  childActive : Bool
  childActiveItem : Option Nat
  deriving DecidableEq, Repr

/-- Opening the submenu anchored at parent item `p` (Menu.tsx lines
202-206 `openSubMenu`, reached from the select case at lines 243-253 or the
forward-direction arrow case at lines 294-295): the handler first sets the
parent's active element to the triggering item (line 292), then
`setActiveSubTrigger(p)` and `setIsMenuActive(false)`; the child's open
effect (lines 169-171) sets its `isMenuActive` to `true` and its ref
callback (lines 309-328) activates the child's initial item `childInit`. -/
def openSubTrans (p : Nat) (childInit : Option Nat) : MenuDuoState :=
  { parentActive := false, parentActiveItem := some p, subTrigger := some p,
    childActive := true, childActiveItem := childInit }

/-- The backward-direction arrow key inside the child (Menu.tsx lines
296-301): the child calls the parent's `setActiveElement(activeSubTrigger)`
(which also clears the parent's `activeSubTrigger`, lines 146-151), then
`setIsMenuActive(true)` and `setActiveSubTrigger(null)`; the child's close
effect (lines 162-168) clears the child's active element and
`isMenuActive`. -/
def closeSubTrans (s : MenuDuoState) : MenuDuoState :=
  { parentActive := true, parentActiveItem := s.subTrigger, subTrigger := none,
    childActive := false, childActiveItem := none }

/-- Up/Down navigation inside the parent (Menu.tsx lines 263-292): only the
parent's active element changes. -/
def parentNavTrans (s : MenuDuoState) (next : Option Nat) : MenuDuoState :=
  { s with parentActiveItem := next }

/-- Up/Down navigation inside the child (Menu.tsx lines 263-292): when the
parent is still keyboard-active the child instead clears its own trigger in
the parent (lines 266-268), closing itself (close effect, lines 162-168);
otherwise only the child's active element changes. -/
def childNavTrans (s : MenuDuoState) (next : Option Nat) : MenuDuoState :=
  if s.parentActive then
    { s with
      subTrigger := none
      childActive := false
      childActiveItem := none }
  else { s with childActiveItem := next }

/-- The parent context's `setActiveElement` closure (Menu.tsx lines
146-151), invoked by pointer interaction on a parent item: it sets the
parent's active element and clears `activeSubTrigger`, closing the child
(close effect, lines 162-168). -/
def parentSetActiveTrans (s : MenuDuoState) (next : Option Nat) : MenuDuoState :=
  { s with
    parentActiveItem := next
    subTrigger := none
    childActive := false
    childActiveItem := none }

/-- The child context's `setActiveElement` closure (Menu.tsx lines
146-151), invoked by pointer interaction on a child item: it deactivates
the parent's keyboard handling (`menuCtx?.setIsMenuActive(false)`) and sets
the child's active element. -/
def childSetActiveTrans (s : MenuDuoState) (next : Option Nat) : MenuDuoState :=
  { s with parentActive := false, childActiveItem := next }

/-- Outside click (Menu.tsx lines 183-200): both active elements and the
trigger are cleared; the activity flags are untouched by the handler, and
the child's close effect clears its flag. -/
def outsideClickTrans (s : MenuDuoState) : MenuDuoState :=
  { s with
    parentActiveItem := none
    subTrigger := none
    childActive := false
    childActiveItem := none }

/-- Closing the whole menu (open-prop change effect, Menu.tsx lines
162-168, on both menus): everything resets. -/
def closeAllTrans : MenuDuoState :=
  { parentActive := false, parentActiveItem := none, subTrigger := none,
    childActive := false, childActiveItem := none }

/-- The parent menu just opened (Menu.tsx lines 169-171): the parent is
keyboard-active, no item active, no submenu open. -/
def menuInitState : MenuDuoState :=
  { parentActive := true, parentActiveItem := none, subTrigger := none,
    childActive := false, childActiveItem := none }

/-- Reachable states of the parent/child pair.  Guards record when each
handler can fire: the parent's keydown listener is mounted only while
`open && isMenuActive` (Menu.tsx lines 208-305 with enable flag at line
304), the child's likewise; pointer interaction with the child requires
the child to be open (a closed menu is `inert`, line 383). -/
inductive MenuReach : MenuDuoState → Prop
  | init : MenuReach menuInitState
  | openSub (s : MenuDuoState) (p : Nat) (childInit : Option Nat) :
      MenuReach s → s.parentActive = true → MenuReach (openSubTrans p childInit)
  | closeSub (s : MenuDuoState) :
      MenuReach s → s.childActive = true → MenuReach (closeSubTrans s)
  | parentNav (s : MenuDuoState) (next : Option Nat) :
      MenuReach s → s.parentActive = true → MenuReach (parentNavTrans s next)
  | childNav (s : MenuDuoState) (next : Option Nat) :
      MenuReach s → s.childActive = true → MenuReach (childNavTrans s next)
  | parentSetActive (s : MenuDuoState) (next : Option Nat) :
      MenuReach s → MenuReach (parentSetActiveTrans s next)
  | childSetActive (s : MenuDuoState) (next : Option Nat) :
      MenuReach s → s.subTrigger.isSome = true →
      MenuReach (childSetActiveTrans s next)
  | outsideClick (s : MenuDuoState) :
      MenuReach s → MenuReach (outsideClickTrans s)
  | closeAll (s : MenuDuoState) : MenuReach s → MenuReach closeAllTrans

/-- Claim C5: in every reachable state of the submenu machine, at most one
of the parent and the child is keyboard-active; moreover the opening
transition always clears the parent's menu-active flag, and the transition
returning control to the parent always clears the child's activation and
its trigger. -/
theorem c5_single_active_invariant (s : MenuDuoState) (h : MenuReach s) :
    (¬(s.parentActive = true ∧ s.childActive = true)) ∧
    (∀ (p : Nat) (childInit : Option Nat),
      (openSubTrans p childInit).parentActive = false) ∧
    (∀ t : MenuDuoState, (closeSubTrans t).childActive = false ∧
      (closeSubTrans t).subTrigger = none ∧
      (closeSubTrans t).parentActive = true) := by
  refine ⟨?_, fun p ci => rfl, fun t => ⟨rfl, rfl, rfl⟩⟩
  induction h with
  | init => simp [menuInitState]
  | openSub s p childInit _ _ _ => simp [openSubTrans]
  | closeSub s _ _ _ => simp [closeSubTrans]
  | parentNav s next _ _ ih => simpa [parentNavTrans] using ih
  | childNav s next _ _ ih =>
    unfold childNavTrans
    by_cases hp : s.parentActive
    · simp [hp]
    · simpa [hp] using ih
  | parentSetActive s next _ ih => simp [parentSetActiveTrans]
  | childSetActive s next _ _ ih => simp [childSetActiveTrans]
  | outsideClick s _ ih => simp [outsideClickTrans]
  | closeAll s _ _ => simp [closeAllTrans]

theorem c5_single_active_invariant_witness :
    (¬(menuInitState.parentActive = true ∧ menuInitState.childActive = true)) ∧
    (∀ (p : Nat) (childInit : Option Nat),
      (openSubTrans p childInit).parentActive = false) ∧
    (∀ t : MenuDuoState, (closeSubTrans t).childActive = false ∧
      (closeSubTrans t).subTrigger = none ∧
      (closeSubTrans t).parentActive = true) :=
  c5_single_active_invariant menuInitState MenuReach.init

/-- Interaction phases that can occur inside the open child before the
backward-direction key is pressed: child keyboard navigation and child
pointer activation. -/
inductive ChildPhase : MenuDuoState → MenuDuoState → Prop
  | refl (s : MenuDuoState) : ChildPhase s s
  | nav (s t : MenuDuoState) (next : Option Nat) :
      ChildPhase s t → t.childActive = true → ChildPhase s (childNavTrans t next)
  | hover (s t : MenuDuoState) (next : Option Nat) :
      ChildPhase s t → ChildPhase s (childSetActiveTrans t next)

theorem childPhase_preserves (s t : MenuDuoState) (h : ChildPhase s t)
    (hpa : s.parentActive = false) :
    t.parentActive = false ∧ t.subTrigger = s.subTrigger ∧
      t.childActive = s.childActive := by
  induction h with
  | refl => exact ⟨hpa, rfl, rfl⟩
  | nav t next _ hact ih =>
    have hih := ih
    unfold childNavTrans
    rw [hih.1]
    simp only [Bool.false_eq_true, if_false]
    exact ⟨trivial, hih.2.1, hih.2.2⟩
  | hover t next _ ih =>
    have hih := ih
    unfold childSetActiveTrans
    exact ⟨rfl, hih.2.1, hih.2.2⟩

/-- Claim C6: after opening a child submenu from triggering parent item
`p`, any run of child-side navigation later followed by the
backward-direction arrow key restores the parent's active descendant to
exactly `p`, clears the child's active descendant, and returns
keyboard-input authority to the parent. -/
theorem c6_backward_restores_trigger (s t : MenuDuoState) (p : Nat)
    (childInit : Option Nat)
    (h : ChildPhase (openSubTrans p childInit) t) :
    (closeSubTrans t).parentActiveItem = some p ∧
    (closeSubTrans t).childActiveItem = none ∧
    (closeSubTrans t).parentActive = true ∧
    (closeSubTrans t).childActive = false ∧
    t.childActive = true := by
  have hpres := childPhase_preserves (openSubTrans p childInit) t h rfl
  refine ⟨?_, rfl, rfl, rfl, ?_⟩
  · show t.subTrigger = some p
    rw [hpres.2.1]
    rfl
  · rw [hpres.2.2]
    rfl

theorem c6_backward_restores_trigger_witness :
    (closeSubTrans (openSubTrans 3 none)).parentActiveItem = some 3 ∧
    (closeSubTrans (openSubTrans 3 none)).childActiveItem = none ∧
    (closeSubTrans (openSubTrans 3 none)).parentActive = true ∧
    (closeSubTrans (openSubTrans 3 none)).childActive = false ∧
    (openSubTrans 3 none).childActive = true :=
  c6_backward_restores_trigger (openSubTrans 3 none) (openSubTrans 3 none) 3 none
    (ChildPhase.refl (openSubTrans 3 none))

/-- A radio group member: its `value` (the entityId, emitted as
`data-entity`) and `disabled` flag (`src/lib/Radio/Radio.tsx`). -/
structure RadioMember where
  value : String
  disabled : Bool
  deriving DecidableEq, Repr

/-- JavaScript truthiness of the forced tab stop
(`if (forcedTabableItem && ...)`, Radio.tsx line 194): non-null and
non-empty. -/
def forcedTruthy (forced : Option String) : Bool :=
  match forced with
  | none => false
  | some f => decide (f ≠ "")

/-- Translation of `calcTabIndex` (`src/lib/Radio/Radio.tsx` lines
187-201):

```
if (typeof overrideTabIndex !== "undefined") return overrideTabIndex;
if (disabled) return -1;
if (!radioGroupCtx) return 0;
const forcedTabableItem = radioGroupCtx.forcedTabability;
if (forcedTabableItem && forcedTabableItem === value) return 0;
const isSelected = radioGroupCtx.value === value;
if (!isSelected) return -1;
return 0;
``` -/
def radioCalcTabIndex (overrideTabIndex : Option Int) (disabled : Bool)
    (inGroup : Bool) (forced : Option String) (groupValue : Option String)
    (value : Option String) : Int :=
  match overrideTabIndex with
  | some t => t
  | none =>
    if disabled then -1
    else if !inGroup then 0
    else if forcedTruthy forced && decide (forced = value) then 0
    else if decide (groupValue = value) then 0
    else -1

/-- Modelled from the spec: the RadioGroup coordinator source is not among
the given files (only its consumer `calcTabIndex` in Radio.tsx is), so its
forced tab stop follows §4.4 of the spec: "`forcedTabStop` = selected
entityId if any, else the first available Item's entityId". -/
def radioGroupForcedTabability (members : List RadioMember)
    (groupValue : Option String) : Option String :=
  match groupValue with
  | some v => some v
  | none =>
    ((members.filter (fun m => !m.disabled)).head?).map (fun m => m.value)

/-- A tab element as read by the forced-tabability effect of `TabGroupBase`
(`src/lib/utils/get-scrolling-state.ts` lines 129-141): the `disabled`
attribute, `aria-disabled`, and the optional `data-entity`. -/
structure TabEntity where
  hasDisabledAttr : Bool
  ariaDisabled : Bool
  dataEntity : Option String
  deriving DecidableEq, Repr

/-- Translation of the forced-tabability effect
(`src/lib/utils/get-scrolling-state.ts` lines 120-142): while a tab is
selected (`activeTab` truthy) the forced tabability is reset to null;
otherwise it becomes the `data-entity` of the first non-disabled tab
(`null` when there is none).  The source's reset `prev ? null : prev`
keeps a previous empty-string value, which is falsy and behaves like
null everywhere it is read. -/
def tabGroupForcedTabability (tabs : List TabEntity) (activeTab : String) :
    Option String :=
  if activeTab ≠ "" then none
  else ((tabs.filter
      (fun t => !(t.hasDisabledAttr || t.ariaDisabled))).head?).bind
    (fun t => t.dataEntity)

/-- Translation of the Tab tabIndex (`src/lib/TabGroup/Tab/Tab.tsx` line
197): `tabIndex={disabled ? -1 : selected ? 0 : -1}`. -/
def tabTabIndex (disabled selected : Bool) : Int :=
  if disabled then -1 else if selected then 0 else -1

/-- Number of members of a tab group with tabIndex 0, given each member's
`(disabled, selected)` flags. -/
def tabStopCount (flags : List (Bool × Bool)) : Nat :=
  (flags.map (fun f => tabTabIndex f.1 f.2)).count 0

/-- Claim C7 counterexample: in a TabGroup (whole code in the sources), the
forced tab stop is `none` — not the selected entityId — while a tab is
selected; and with no tab selected, an enabled unselected member has
tabIndex -1, so a one-member group has zero members with tabIndex 0 rather
than exactly one. -/
theorem c7_counterexample :
    tabGroupForcedTabability [⟨false, false, some "t1"⟩] "t1" = none ∧
    tabGroupForcedTabability [⟨false, false, some "t1"⟩] "" = some "t1" ∧
    tabTabIndex false false = -1 ∧
    tabStopCount [(false, false)] = 0 := by
  refine ⟨?_, ?_, ?_, ?_⟩ <;> rfl

theorem countP_eq_one_unique {α : Type} (l : List α) (p : α → Bool) (a : α)
    (hnodup : l.Nodup) (ha : a ∈ l) (hpa : p a = true)
    (huniq : ∀ b ∈ l, p b = true → b = a) :
    l.countP p = 1 := by
  have hfilter : l.filter p = [a] := by
    have hmemf : a ∈ l.filter p := List.mem_filter.mpr ⟨ha, hpa⟩
    have hallf : ∀ x ∈ l.filter p, x = a := fun x hx =>
      huniq x (List.mem_filter.mp hx).1 (List.mem_filter.mp hx).2
    have hnd : (l.filter p).Nodup := List.Nodup.filter p hnodup
    cases hf : l.filter p with
    | nil =>
      rw [hf] at hmemf
      cases hmemf
    | cons x xs =>
      rw [hf] at hallf hnd
      have hx := hallf x (List.mem_cons_self x xs)
      cases xs with
      | nil => rw [hx]
      | cons y ys =>
        exfalso
        have hy := hallf y (by simp)
        have hxy : x = y := hx.trans hy.symm
        exact (List.nodup_cons.mp hnd).1 (hxy ▸ List.mem_cons_self y ys)
  rw [List.countP_eq_length_filter, hfilter]
  rfl

theorem radioCalcTabIndex_selected_iff (d : Bool) (v mv : String) :
    (radioCalcTabIndex none d true (some v) (some v) (some mv) = 0) ↔
      (d = false ∧ mv = v) := by
  unfold radioCalcTabIndex forcedTruthy
  cases d with
  | true => simp
  | false =>
    by_cases hv : mv = v
    · subst hv
      simp
    · have hv' : ¬(v = mv) := fun h => hv h.symm
      simp [hv, hv']

theorem radioCalcTabIndex_unselected_iff (d : Bool) (f mv : String)
    (hf : f ≠ "") :
    (radioCalcTabIndex none d true (some f) none (some mv) = 0) ↔
      (d = false ∧ mv = f) := by
  unfold radioCalcTabIndex forcedTruthy
  cases d with
  | true => simp
  | false =>
    by_cases hv : mv = f
    · subst hv
      simp [hf]
    · have hv' : ¬(f = mv) := fun h => hv h.symm
      simp [hv, hv']

/-- Claim C7, amended: for a Radio group (its member tab-index computation
from Radio.tsx, the group coordinator's forced tab stop modelled from the
spec) with pairwise-distinct non-empty member values, exactly one
non-overridden member gets tabIndex 0 — the selected member when the
selection names an enabled member, and the first enabled member when
nothing is selected.  A TabGroup member's tabIndex is 0 exactly when the
tab is enabled and selected (so a tab group with no selected tab exposes
no tab stop, and the selected tab itself — not `forcedTabability`, which is
then null — is the single tab stop). -/
theorem c7_amended_roving_tab_stop (members : List RadioMember)
    (hnodup : (members.map (fun m => m.value)).Nodup)
    (hne : ∀ m ∈ members, m.value ≠ "") :
    (∀ v m0, m0 ∈ members → m0.value = v → m0.disabled = false →
      members.countP (fun m => decide (radioCalcTabIndex none m.disabled true
        (radioGroupForcedTabability members (some v)) (some v)
        (some m.value) = 0)) = 1 ∧
      radioCalcTabIndex none m0.disabled true
        (radioGroupForcedTabability members (some v)) (some v)
        (some m0.value) = 0) ∧
    (∀ m0, (members.filter (fun m => !m.disabled)).head? = some m0 →
      members.countP (fun m => decide (radioCalcTabIndex none m.disabled true
        (radioGroupForcedTabability members none) none
        (some m.value) = 0)) = 1 ∧
      radioCalcTabIndex none m0.disabled true
        (radioGroupForcedTabability members none) none
        (some m0.value) = 0) ∧
    (∀ d s, tabTabIndex d s = 0 ↔ (d = false ∧ s = true)) := by
  have hmembersNodup : members.Nodup := List.Nodup.of_map _ hnodup
  refine ⟨?_, ?_, by decide⟩
  · intro v m0 hm0 hval hdis
    have hforced : radioGroupForcedTabability members (some v) = some v := rfl
    rw [hforced]
    constructor
    · apply countP_eq_one_unique members _ m0 hmembersNodup hm0
      · rw [decide_eq_true_iff]
        rw [radioCalcTabIndex_selected_iff]
        exact ⟨hdis, hval⟩
      · intro b hb hpb
        rw [decide_eq_true_iff, radioCalcTabIndex_selected_iff] at hpb
        exact List.inj_on_of_nodup_map hnodup hb hm0 (by rw [hpb.2, hval])
    · rw [radioCalcTabIndex_selected_iff]
      exact ⟨hdis, hval⟩
  · intro m0 hm0
    have hm0f : m0 ∈ members.filter (fun m => !m.disabled) :=
      List.mem_of_mem_head? (by rw [hm0]; rfl)
    have hm0mem : m0 ∈ members := (List.mem_filter.mp hm0f).1
    have hm0en : m0.disabled = false := by
      have := (List.mem_filter.mp hm0f).2
      simpa using this
    have hforced : radioGroupForcedTabability members none = some m0.value := by
      unfold radioGroupForcedTabability
      rw [hm0]
      rfl
    rw [hforced]
    have hfne : m0.value ≠ "" := hne m0 hm0mem
    constructor
    · apply countP_eq_one_unique members _ m0 hmembersNodup hm0mem
      · rw [decide_eq_true_iff, radioCalcTabIndex_unselected_iff _ _ _ hfne]
        exact ⟨hm0en, rfl⟩
      · intro b hb hpb
        rw [decide_eq_true_iff,
          radioCalcTabIndex_unselected_iff _ _ _ hfne] at hpb
        exact List.inj_on_of_nodup_map hnodup hb hm0mem hpb.2
    · rw [radioCalcTabIndex_unselected_iff _ _ _ hfne]
      exact ⟨hm0en, rfl⟩

/-- Demo radio group for the witness: value "a" enabled, value "b"
enabled. -/
def demoRadios : List RadioMember := [⟨"a", false⟩, ⟨"b", false⟩]

theorem c7_amended_roving_tab_stop_witness :
    ((demoRadios.map (fun m => m.value)).Nodup ∧
      ∀ m ∈ demoRadios, m.value ≠ "") ∧
    ((∀ v m0, m0 ∈ demoRadios → m0.value = v → m0.disabled = false →
      demoRadios.countP (fun m => decide (radioCalcTabIndex none m.disabled true
        (radioGroupForcedTabability demoRadios (some v)) (some v)
        (some m.value) = 0)) = 1 ∧
      radioCalcTabIndex none m0.disabled true
        (radioGroupForcedTabability demoRadios (some v)) (some v)
        (some m0.value) = 0) ∧
    (∀ m0, (demoRadios.filter (fun m => !m.disabled)).head? = some m0 →
      demoRadios.countP (fun m => decide (radioCalcTabIndex none m.disabled true
        (radioGroupForcedTabability demoRadios none) none
        (some m.value) = 0)) = 1 ∧
      radioCalcTabIndex none m0.disabled true
        (radioGroupForcedTabability demoRadios none) none
        (some m0.value) = 0) ∧
    (∀ d s, tabTabIndex d s = 0 ↔ (d = false ∧ s = true))) :=
  ⟨⟨by decide, by decide⟩,
    c7_amended_roving_tab_stop demoRadios (by decide) (by decide)⟩

/-- The entityId validation of `RadioBase` (`src/lib/Radio/Radio.tsx` lines
122-131): `if (radioGroupCtx && typeof value === "undefined") throw new
SystemError(...)`.  A missing `value` prop is `none`. -/
def radioValueGuard (inGroup : Bool) (value : Option String) :
    Except String Unit :=
  if inGroup && value.isNone then
    Except.error "The `value` property is missing."
  else Except.ok ()

/-- The entityId validation of `CheckboxBase` (`src/unnamed/part_000` lines
156-166): same `typeof value === "undefined"` check inside a CheckGroup. -/
def checkboxValueGuard (inGroup : Bool) (value : Option String) :
    Except String Unit :=
  if inGroup && value.isNone then
    Except.error "The `value` property is missing."
  else Except.ok ()

/-- Claim C8 counterexample: a group member whose entityId is the *empty
string* is accepted without any error — the source checks only
`typeof value === "undefined"` — contradicting the claim that a missing
*or empty* entityId raises a ConfigurationError. -/
theorem c8_counterexample :
    radioValueGuard true (some "") = Except.ok () ∧
    checkboxValueGuard true (some "") = Except.ok () := ⟨rfl, rfl⟩

/-- Claim C8, amended: inside a group coordinator a *missing* entityId
(and only a missing one — an empty string passes) makes setup throw a
fatal `SystemError` synchronously, for Radio in a RadioGroup and for
Checkbox in a CheckGroup alike; outside a group no such error is raised. -/
theorem c8_amended_value_guard (inGroup : Bool) (value : Option String) :
    ((∃ e, radioValueGuard inGroup value = Except.error e) ↔
      (inGroup = true ∧ value = none)) ∧
    ((∃ e, checkboxValueGuard inGroup value = Except.error e) ↔
      (inGroup = true ∧ value = none)) ∧
    (inGroup = false → radioValueGuard inGroup value = Except.ok () ∧
      checkboxValueGuard inGroup value = Except.ok ()) := by
  unfold radioValueGuard checkboxValueGuard
  cases inGroup <;> rcases value with _ | v <;> simp

theorem c8_amended_value_guard_witness :
    ((∃ e, radioValueGuard true none = Except.error e) ↔
      (true = true ∧ (none : Option String) = none)) ∧
    ((∃ e, checkboxValueGuard true none = Except.error e) ↔
      (true = true ∧ (none : Option String) = none)) ∧
    (true = false → radioValueGuard true none = Except.ok () ∧
      checkboxValueGuard true none = Except.ok ()) :=
  c8_amended_value_guard true none

/-- The checkbox checked state `boolean | "indeterminate"` consumed by
`CheckboxBase` (`src/unnamed/part_000`). -/
inductive CheckedState
  | checkedTrue
  | checkedFalse
  | indeterminate
  deriving DecidableEq, Repr

/-- part_000 line 234: `checkBase.checked === "indeterminate"`. -/
def isIndeterminated (c : CheckedState) : Bool :=
  match c with
  | CheckedState.indeterminate => true
  | _ => false

/-- part_000 line 235: `isIndeterminated ? false : (checkBase.checked as
boolean)`. -/
def isChecked (c : CheckedState) : Bool :=
  if isIndeterminated c then false
  else
    match c with
    | CheckedState.checkedTrue => true
    | _ => false

/-- part_000 line 310: `aria-checked={isIndeterminated ? "mixed" :
isChecked}` (the boolean is serialized by the rendering layer). -/
def ariaChecked (c : CheckedState) : String :=
  if isIndeterminated c then "mixed"
  else if isChecked c then "true" else "false"

/-- JavaScript falsiness of an optional string prop (`!name || !value`):
missing or empty. -/
def jsFalsyStr (s : Option String) : Bool :=
  match s with
  | none => true
  | some str => decide (str = "")

/-- The hidden form input rendered by a checked checkbox (part_000 lines
283-290). -/
structure HiddenInput where
  name : String
  value : String
  disabled : Bool
  deriving DecidableEq, Repr

/-- Translation of `renderHiddenInput` (part_000 lines 280-291):
`if (!name || !value || !isChecked) return null;` otherwise a hidden input
with that name/value pair. -/
def renderHiddenInput (name value : Option String) (c : CheckedState)
    (isDisabled : Bool) : Option HiddenInput :=
  if jsFalsyStr name || jsFalsyStr value || !(isChecked c) then none
  else some ⟨name.getD "", value.getD "", isDisabled⟩

/-- Claim C9: an indeterminate checkbox exposes checked state `false`,
emits ARIA checked state `"mixed"`, and renders no hidden form input for
any name/value props — the indeterminate value is display-only and never
contributes a submitted name/value pair. -/
theorem c9_indeterminate_display_only :
    isChecked CheckedState.indeterminate = false ∧
    ariaChecked CheckedState.indeterminate = "mixed" ∧
    (∀ name value isDisabled,
      renderHiddenInput name value CheckedState.indeterminate isDisabled =
        none) := by
  refine ⟨rfl, rfl, ?_⟩
  intro name value isDisabled
  unfold renderHiddenInput
  simp [isChecked, isIndeterminated]

/-- Focus-visible state of a control: its `disabled` prop and the
`isFocusedVisible` React state (`src/unnamed/part_004` `ThumbBase` lines
118-152; the same logic appears in `useComboboxBase`,
`src/lib/Select/components/Controller/utils.ts` lines 78-162). -/
structure FocusState where
  disabled : Bool
  focusedVisible : Bool
  deriving DecidableEq, Repr

/-- Initial state (part_004 lines 118-120):
`useState(() => disabled ? false : autoFocus)`. -/
def initFocusState (disabled autoFocus : Bool) : FocusState :=
  { disabled := disabled
    focusedVisible := if disabled then false else autoFocus }

/-- The render guard (part_004 line 122):
`if (disabled && isFocusedVisible) setIsFocusedVisible(false)`. -/
def renderGuard (s : FocusState) : FocusState :=
  if s.disabled && s.focusedVisible then { s with focusedVisible := false }
  else s

/-- `handleFocus` (part_004 lines 131-142): a disabled control returns
early; otherwise the flag is set when the platform heuristic classifies
the focus as keyboard-originated. -/
def handleFocusTrans (s : FocusState) (isFocusVisible : Bool) : FocusState :=
  if s.disabled then s
  else if isFocusVisible then { s with focusedVisible := true } else s

/-- `handleBlur` (part_004 lines 144-152): a disabled control returns
early; otherwise the flag is cleared when focus-visibility ended. -/
def handleBlurTrans (s : FocusState) (isFocusVisible : Bool) : FocusState :=
  if s.disabled then s
  else if !isFocusVisible then { s with focusedVisible := false } else s

/-- A change of the `disabled` prop followed by the next render, which
runs the render guard. -/
def setDisabledTrans (s : FocusState) (d : Bool) : FocusState :=
  renderGuard { s with disabled := d }

/-- States reachable by initializing the control and serving focus/blur
events and `disabled` prop changes. -/
inductive FocusReach : FocusState → Prop
  | init (disabled autoFocus : Bool) :
      FocusReach (initFocusState disabled autoFocus)
  | focus (s : FocusState) (v : Bool) :
      FocusReach s → FocusReach (handleFocusTrans s v)
  | blur (s : FocusState) (v : Bool) :
      FocusReach s → FocusReach (handleBlurTrans s v)
  | setDisabled (s : FocusState) (d : Bool) :
      FocusReach s → FocusReach (setDisabledTrans s d)

/-- Claim C10: in every reachable state, a disabled control's
`focusedVisible` flag is false — it initializes to false when disabled
(even with autoFocus), is forced back to false when `disabled` becomes
true while the flag was set, and focus events on a disabled control never
set it. -/
theorem c10_disabled_not_focus_visible (s : FocusState) (h : FocusReach s) :
    s.disabled = true → s.focusedVisible = false := by
  induction h with
  | init disabled autoFocus =>
    intro hd
    have hd' : disabled = true := hd
    show (if disabled then false else autoFocus) = false
    rw [hd']
    rfl
  | focus s v _ ih =>
    intro hd
    unfold handleFocusTrans at hd ⊢
    by_cases hsd : s.disabled = true
    · rw [if_pos hsd] at hd ⊢
      exact ih hd
    · rw [if_neg hsd] at hd ⊢
      by_cases hv : v = true
      · rw [if_pos hv] at hd ⊢
        exact absurd hd hsd
      · rw [if_neg hv] at hd ⊢
        exact ih hd
  | blur s v _ ih =>
    intro hd
    unfold handleBlurTrans at hd ⊢
    by_cases hsd : s.disabled = true
    · rw [if_pos hsd] at hd ⊢
      exact ih hd
    · rw [if_neg hsd] at hd ⊢
      by_cases hv : (!v) = true
      · rw [if_pos hv] at hd ⊢
      · rw [if_neg hv] at hd ⊢
        exact ih hd
  | setDisabled s d _ ih =>
    intro hd
    unfold setDisabledTrans renderGuard at hd ⊢
    rcases Bool.dichotomy s.focusedVisible with hfv | hfv
    · simp [hfv]
    · rcases Bool.dichotomy d with hdd | hdd
      · rw [hdd] at hd
        simp at hd
      · simp [hdd, hfv]

theorem c10_disabled_not_focus_visible_witness :
    (initFocusState true true).disabled = true ∧
    (initFocusState true true).focusedVisible = false :=
  ⟨rfl, c10_disabled_not_focus_visible (initFocusState true true)
    (FocusReach.init true true) rfl⟩
